import Mathlib

/-!
Verification of the cc-insights ingestion-and-aggregation engine
(`src/scripts/stats.py`).

The Python source is shallowly embedded as executable Lean definitions:

* Python `str` values manipulated by the model normalizer are embedded as
  `List Char`; the relevant Python string methods (`lower`, `replace` of a
  single character, `split("-")`, substring containment via `in`,
  `str.isdigit`, `"-".join`) are defined below on `List Char`, mirroring
  their Python semantics (restricted to ASCII, which is what model
  identifiers contain — Python's `str.isdigit` also accepts non-ASCII
  decimal digits, which never occur here).
* Decoded JSON values (the result of `json.loads`) are embedded as the
  inductive type `Json`; JSON numbers are rationals (Python parses them to
  `int`/`float`; `int(...)` truncation toward zero is modelled explicitly).
* Python exceptions (`TypeError`, `AttributeError`, `KeyError`,
  `ValueError`) are embedded with `Except PyErr`; a function that Python
  would let an exception escape from returns `.error`, and a `try/except`
  block is a `match` on the `Except` value.
* Timestamp formatting (`datetime.fromtimestamp(...).isoformat()`,
  `datetime.now()`) is environment-dependent; the parser takes an `Env`
  record of these conversions, applied exactly where the source applies
  them.
* SQLite: the fact table is a list of records, the cursor table a total map
  from file path to `last_line` (absent row = 0, exactly the source's
  `row[0] if row else 0`). `INSERT OR REPLACE` is pointwise update.
  An exception escaping `sync_json_to_db` means `conn.commit()` is never
  reached, so the transaction rolls back: the model returns `.error` and
  discards the uncommitted state.
* The aggregation queries of `get_stats` compare ISO `YYYY-MM-DD` date
  strings with SQLite TEXT `>=`/`<=`, and compute window boundaries with
  `datetime - timedelta(days=k)`. ISO date strings under lexicographic
  order are order-isomorphic to day numbers, and `timedelta` subtraction is
  subtraction of day numbers, so the query layer embeds dates as `Int` day
  indices: `date >= (now - timedelta(days=k)).strftime(...)` becomes
  `today - k ≤ date`.
-/

namespace CCInsights

/-! ### Character facts (ASCII), used by the `List Char` string model -/

theorem char_digit_nat (c : Char) (h : c.isDigit = true) :
    48 ≤ c.val.toNat ∧ c.val.toNat ≤ 57 := by
  simp only [Char.isDigit, Bool.and_eq_true, decide_eq_true_eq, ge_iff_le,
    UInt32.le_def, BitVec.le_def] at h
  exact h

theorem toLower_eq_self_of_isDigit (c : Char) (h : c.isDigit = true) : c.toLower = c := by
  obtain ⟨h1, h2⟩ := char_digit_nat c h
  unfold Char.toLower
  rw [if_neg]
  intro hc
  obtain ⟨h3, h4⟩ := hc
  simp only [Char.toNat] at h3 h4
  omega

theorem isAlpha_eq_false_of_isDigit (c : Char) (h : c.isDigit = true) : c.isAlpha = false := by
  obtain ⟨h1, h2⟩ := char_digit_nat c h
  simp only [Char.isAlpha, Char.isUpper, Char.isLower, Bool.or_eq_false_iff,
    Bool.and_eq_false_iff, decide_eq_false_iff_not, not_le, ge_iff_le,
    UInt32.le_def, UInt32.lt_def, BitVec.le_def, BitVec.lt_def]
  have e1 : ((65 : UInt32)).toBitVec.toNat = 65 := rfl
  have e2 : ((90 : UInt32)).toBitVec.toNat = 90 := rfl
  have e3 : ((97 : UInt32)).toBitVec.toNat = 97 := rfl
  have e4 : ((122 : UInt32)).toBitVec.toNat = 122 := rfl
  have e5 : c.val.toBitVec.toNat = c.val.toNat := rfl
  rw [e1, e2, e3, e4, e5]
  omega

theorem ne_dot_of_isDigit (c : Char) (h : c.isDigit = true) : c ≠ '.' := by
  intro e
  rw [e] at h
  exact absurd h (by decide)

theorem ne_colon_of_isDigit (c : Char) (h : c.isDigit = true) : c ≠ ':' := by
  intro e
  rw [e] at h
  exact absurd h (by decide)

theorem ne_dash_of_isDigit (c : Char) (h : c.isDigit = true) : c ≠ '-' := by
  intro e
  rw [e] at h
  exact absurd h (by decide)

/-! ### Python string primitives on `List Char` -/

/-- Python `s.lower()` (ASCII). -/
def pyLower (s : List Char) : List Char := s.map Char.toLower

/-- One character of `raw.replace(".", "-").replace(":", "-")`: both
patterns are single characters, so the two sequential `str.replace` calls
are one character map. -/
def replaceChar (c : Char) : Char :=
  if c = '.' then '-' else if c = ':' then '-' else c

/-- Python `raw.replace(".", "-").replace(":", "-")`. -/
def mapReplace (s : List Char) : List Char := s.map replaceChar

/-- Python `s.split(sep)` for a one-character separator: splits at every
occurrence, keeping empty pieces, and `"".split(sep) == [""]`. -/
def splitChar (sep : Char) : List Char → List (List Char)
  | [] => [[]]
  | c :: cs =>
    match splitChar sep cs with
    | [] => [[]]
    | t :: ts => if c = sep then [] :: t :: ts else (c :: t) :: ts

/-- Python `pat in s` (substring containment) for strings. -/
def strIn (pat : List Char) : List Char → Bool
  | [] => pat.isEmpty
  | c :: cs => pat.isPrefixOf (c :: cs) || strIn pat cs

/-- Python `"-".join(parts)` generalized to one separator character. -/
def joinSep (sep : Char) : List (List Char) → List Char
  | [] => []
  | [v] => v
  | v :: w :: rest => v ++ sep :: joinSep sep (w :: rest)

/-- Python `next((i for i, x in enumerate(l) if p x))`, with
`StopIteration` as `none` (the source catches it). -/
def firstIdx (p : α → Bool) : List α → Option Nat
  | [] => none
  | a :: l => if p a then some 0 else (firstIdx p l).map (· + 1)

/-- The loop condition `p.isdigit() and len(p) <= 2` collecting version
components in `normalize_model_name`. -/
def isVersionTok (p : List Char) : Bool :=
  ¬ p.isEmpty && p.all Char.isDigit && p.length ≤ 2

/-! ### `normalize_model_name` (source lines 102–128) -/

def opusKw : List Char := ['o', 'p', 'u', 's']

def sonnetKw : List Char := ['s', 'o', 'n', 'n', 'e', 't']

def haikuKw : List Char := ['h', 'a', 'i', 'k', 'u']

/-- The tuple `("opus", "sonnet", "haiku")` iterated by the `for family`
loop, in source order (the order is the match priority). -/
def familyList : List (List Char) := [opusKw, sonnetKw, haikuKw]

/-- `if version_parts: return f"{family}-{joined}"; return family`
(source lines 123–125). -/
def versionJoin (fam : List Char) (version : List (List Char)) : List Char :=
  if version.isEmpty then fam else fam ++ '-' :: joinSep '-' version

/-- The family branch of `normalize_model_name` (source lines 114–127):
locate the family keyword token in the split identifier (`StopIteration`
from `next` is caught and yields the bare keyword), greedily collect the
following short numeric tokens, and rejoin. -/
def normFam (fam : List Char) (parts : List (List Char)) : List Char :=
  match firstIdx (· == fam) parts with
  | none => fam
  | some idx => versionJoin fam ((parts.drop (idx + 1)).takeWhile isVersionTok)

/-- Body of `normalize_model_name` for a truthy string argument: find the
first family keyword contained (case-insensitively) in the identifier;
split the separator-normalized identifier (`.` and `:` mapped to `-`,
split on `-`); collect short numeric tokens after the family token;
rejoin. No family keyword: return the identifier unchanged. -/
def normChars (raw : List Char) : List Char :=
  match familyList.find? (fun fam => strIn fam (pyLower raw)) with
  | none => raw
  | some fam => normFam fam (splitChar '-' (mapReplace raw))

/-- `normalize_model_name(raw)` for `raw : str | None`. `if not raw:
return None` sends both `None` and the falsy empty string to `None`. -/
def normalize_model_name (raw : Option String) : Option String :=
  match raw with
  | none => none
  | some s => if s = "" then none else some ⟨normChars s.data⟩

example : normalize_model_name (some "us.anthropic.claude-opus-4-6-v1") = some "opus-4-6" := by
  decide

example : normalize_model_name (some "global.anthropic.claude-haiku-4-5-20251001-v1:0") =
    some "haiku-4-5" := by decide

example : normalize_model_name (some "claude-3-5-sonnet") = some "sonnet" := by decide

/-! ### Pricing and cost model (source lines 37–61, 290–298)

Python's arithmetic here is on `float`; the model uses `ℚ`. Every rate in
the table is a decimal literal, and the claims about this layer concern
which rates are selected, not binary floating-point rounding. -/

/-- One value of `MODEL_PRICING` / `DEFAULT_PRICING`: rates per 1M tokens. -/
structure Pricing where
  input : ℚ
  output : ℚ
  cache_read : ℚ
  cache_write : ℚ
deriving DecidableEq

/-- The `MODEL_PRICING` dict, in source order (exact keys first, then the
alias keys for partial matches). -/
def MODEL_PRICING : List (String × Pricing) :=
  [("claude-opus-4-5-20250115", ⟨15, 75, 1.875, 18.75⟩),
   ("claude-sonnet-4-5-20250115", ⟨3, 15, 0.30, 3.75⟩),
   ("claude-haiku-3-5-20241022", ⟨0.80, 4, 0.08, 1⟩),
   ("opus", ⟨15, 75, 1.875, 18.75⟩),
   ("sonnet", ⟨3, 15, 0.30, 3.75⟩),
   ("haiku", ⟨0.80, 4, 0.08, 1⟩)]

def DEFAULT_PRICING : Pricing := ⟨15, 75, 1.875, 18.75⟩

/-- `get_pricing(model)`: `if not model` (absent or empty string) gives the
default tier; then exact dict lookup; then the keyword loop (same keywords
and order as the normalizer); then the default tier. Always returns a full
rate table — the Python function returns a dict with all four keys on
every path and raises on none. -/
def get_pricing (model : Option String) : Pricing :=
  match model with
  | none => DEFAULT_PRICING
  | some m =>
    if m = "" then DEFAULT_PRICING
    else
      match List.lookup m MODEL_PRICING with
      | some p => p
      | none =>
        match familyList.find? (fun kw => strIn kw (pyLower m.data)) with
        | some kw => (List.lookup (⟨kw⟩ : String) MODEL_PRICING).getD DEFAULT_PRICING
        | none => DEFAULT_PRICING

/-- `compute_cost(input_t, output_t, cache_read_t, cache_create_t, model)`
(source lines 290–298). A call site that omits `model` passes `none`,
matching the Python default `model=None`. -/
def compute_cost (input_t output_t cache_read_t cache_create_t : Int)
    (model : Option String) : ℚ :=
  let pricing := get_pricing model
  (input_t : ℚ) / 1000000 * pricing.input
    + (output_t : ℚ) / 1000000 * pricing.output
    + (cache_read_t : ℚ) / 1000000 * pricing.cache_read
    + (cache_create_t : ℚ) / 1000000 * pricing.cache_write

/-! ### Trend indicator (source lines 389–398) -/

/-- Round to an integer, ties to even: the rounding of Python's `"%.0f"`
formatting (applied here to the exact rational; the double-precision value
Python formats can differ from the exact rational only within float
rounding, which no claim touches). -/
def rndHalfEven (q : ℚ) : Int :=
  let f := Int.floor q
  let frac := q - f
  if frac < 1/2 then f
  else if 1/2 < frac then f + 1
  else if f % 2 = 0 then f else f + 1

/-- Python `f"{q:.0f}"`: sign taken from the value (so `-0.4` formats as
`"-0"`), magnitude rounded half-to-even. -/
def fmtPct (q : ℚ) : String :=
  if q < 0 then "-" ++ toString (rndHalfEven (-q)) else toString (rndHalfEven q)

/-- `trend_indicator(current, previous)` (source lines 389–398): a zero
previous value short-circuits to the dim `--` marker before any division. -/
def trend_indicator (current previous : ℚ) : String :=
  if previous = 0 then "[dim]--[/dim]"
  else
    let pct := (current - previous) / previous * 100
    if 0 < pct then "[red]▲ +" ++ fmtPct pct ++ "%[/red]"
    else if pct < 0 then "[green]▼ " ++ fmtPct pct ++ "%[/green]"
    else "[dim]─ 0%[/dim]"

/-- C8: for every current value, a previous-window value of zero makes
`trend_indicator` return the explicit `--` "no trend data" marker: the
zero test precedes the division, so no division is performed and no
percentage (infinite or otherwise) is reported. -/
theorem c8_trend_no_baseline (current : ℚ) :
    trend_indicator current 0 = "[dim]--[/dim]" := by
  unfold trend_indicator
  rw [if_pos rfl]

/-- C10: `get_pricing` is total by construction (it returns a full
four-rate `Pricing` on every input and raises on none); an absent model
gets `DEFAULT_PRICING`; the `"opus"` tier of `MODEL_PRICING` is
rate-for-rate equal to `DEFAULT_PRICING`; and any model string matching no
family keyword (case-insensitive substring) also gets `DEFAULT_PRICING`. -/
theorem c10_pricing_total :
    get_pricing none = DEFAULT_PRICING ∧
    List.lookup "opus" MODEL_PRICING = some DEFAULT_PRICING ∧
    (∀ m : String,
      strIn opusKw (pyLower m.data) = false →
      strIn sonnetKw (pyLower m.data) = false →
      strIn haikuKw (pyLower m.data) = false →
      get_pricing (some m) = DEFAULT_PRICING) := by
  refine ⟨rfl, rfl, ?_⟩
  intro m h1 h2 h3
  by_cases he : m = ""
  · simp [get_pricing, he]
  · have k1 : (m == "claude-opus-4-5-20250115") = false := by
      rw [beq_eq_false_iff_ne]
      intro e
      rw [e] at h1
      exact absurd h1 (by decide)
    have k2 : (m == "claude-sonnet-4-5-20250115") = false := by
      rw [beq_eq_false_iff_ne]
      intro e
      rw [e] at h2
      exact absurd h2 (by decide)
    have k3 : (m == "claude-haiku-3-5-20241022") = false := by
      rw [beq_eq_false_iff_ne]
      intro e
      rw [e] at h3
      exact absurd h3 (by decide)
    have k4 : (m == "opus") = false := by
      rw [beq_eq_false_iff_ne]
      intro e
      rw [e] at h1
      exact absurd h1 (by decide)
    have k5 : (m == "sonnet") = false := by
      rw [beq_eq_false_iff_ne]
      intro e
      rw [e] at h2
      exact absurd h2 (by decide)
    have k6 : (m == "haiku") = false := by
      rw [beq_eq_false_iff_ne]
      intro e
      rw [e] at h3
      exact absurd h3 (by decide)
    simp [get_pricing, he, MODEL_PRICING, List.lookup, k1, k2, k3, k4, k5, k6,
      familyList, List.find?, h1, h2, h3]

/-- Witness for C10 at concrete inputs: the absent model and a model
matching no family keyword both get the default (opus) tier. -/
theorem c10_pricing_total_witness :
    get_pricing none = DEFAULT_PRICING ∧
    List.lookup "opus" MODEL_PRICING = some DEFAULT_PRICING ∧
    get_pricing (some "gpt-4") = DEFAULT_PRICING :=
  ⟨c10_pricing_total.1, c10_pricing_total.2.1,
    c10_pricing_total.2.2 "gpt-4" (by decide) (by decide) (by decide)⟩

/-! ### Decoded JSON values and the Python dynamic semantics the parser
relies on -/

/-- Python exception classes that can arise in `parse_otel_metrics` /
`sync_json_to_db`. -/
inductive PyErr where
  | typeError
  | attributeError
  | keyError
  | valueError
deriving DecidableEq

/-- A decoded JSON value — the result of `json.loads` on one line. Numbers
are rationals (Python decodes them to `int`/`float`; `int(...)` truncation
is modelled explicitly where the source applies it). `.null` is Python
`None`, which is also what `dict.get` returns for a missing key with no
default. `.obj` is a Python dict with string keys; `json.loads` collapses
duplicate object keys, so lookups take the first match. -/
inductive Json where
  | null
  | bool (b : Bool)
  | num (q : ℚ)
  | str (s : String)
  | arr (elems : List Json)
  | obj (items : List (String × Json))

/-- Python truthiness of a decoded value (`None`, `False`, `0`, `""`,
`[]`, `{}` are falsy). -/
def pyTruthy : Json → Bool
  | .null => false
  | .bool b => b
  | .num q => q != 0
  | .str s => s != ""
  | .arr l => !l.isEmpty
  | .obj l => !l.isEmpty

/-- Python iteration `for x in v`: a list yields its elements, a string
its one-character substrings, a dict its keys; any other value raises
`TypeError: ... is not iterable`. -/
def pyIter : Json → Except PyErr (List Json)
  | .arr l => .ok l
  | .str s => .ok (s.data.map fun c => .str ⟨[c]⟩)
  | .obj l => .ok (l.map fun kv => .str kv.1)
  | _ => .error .typeError

/-- Python `v.get(key, default)`: only dicts have a `get` attribute;
every other decoded value raises `AttributeError`. -/
def pyGetD (v : Json) (key : String) (dflt : Json) : Except PyErr Json :=
  match v with
  | .obj items =>
    match items.find? (fun kv => kv.1 == key) with
    | some kv => .ok kv.2
    | none => .ok dflt
  | _ => .error .attributeError

/-- Python `key in d` for a dict `d` (membership test on its keys). -/
def hasKeyB (items : List (String × Json)) (key : String) : Bool :=
  items.any (fun kv => kv.1 == key)

/-- Truncation toward zero: Python `int(x)` on a finite float / an int. -/
def ratTrunc (q : ℚ) : Int :=
  if q < 0 then -(Int.floor (-q)) else Int.floor q

/-- Digit run to a natural number. -/
def digitsToNat (ds : List Char) : Nat :=
  ds.foldl (fun n c => 10 * n + (c.toNat - 48)) 0

/-- Python `int(s)` on a string: optional surrounding spaces, optional
sign, then a nonempty digit run; anything else raises `ValueError` (the
underscore-grouping extension never occurs in telemetry payloads). -/
def strToInt (s : List Char) : Except PyErr Int :=
  let t := ((s.dropWhile (· = ' ')).reverse.dropWhile (· = ' ')).reverse
  match t with
  | '-' :: ds =>
    if !ds.isEmpty && ds.all Char.isDigit then .ok (-(digitsToNat ds : Int))
    else .error .valueError
  | '+' :: ds =>
    if !ds.isEmpty && ds.all Char.isDigit then .ok (digitsToNat ds)
    else .error .valueError
  | ds =>
    if !ds.isEmpty && ds.all Char.isDigit then .ok (digitsToNat ds)
    else .error .valueError

/-- Python `int(v)` on a decoded value: ints/floats truncate, bools are
0/1, numeric strings parse, everything else (None, list, dict) raises. -/
def pyInt : Json → Except PyErr Int
  | .num q => .ok (ratTrunc q)
  | .bool b => .ok (if b then 1 else 0)
  | .str s => strToInt s.data
  | _ => .error .typeError

/-- Python `v == "lit"`: equality against a string literal holds only for
an equal string; comparison with other types is `False`, never an error. -/
def jsonEqStr (v : Json) (lit : String) : Bool :=
  match v with
  | .str s => s == lit
  | _ => false

/-! ### The OTEL record parser (source lines 131–220) -/

/-- Ambient time/formatting functions the parser calls:
`datetime.fromtimestamp(nano / 1e9).isoformat()` and `.strftime("%Y-%m-%d")`
(taking the nanosecond value directly; the division into float seconds is
inside the conversion), and `datetime.now()` in both renderings. -/
structure Env where
  fromtimestampIso : Int → String
  fromtimestampDate : Int → String
  nowIso : String
  nowDate : String

/-- One emitted/stored metric record (the dict built at source lines
206–215, which is also exactly what `sync_json_to_db` inserts; the
verbatim `raw_data` column is audit-only and not modelled). -/
structure Record where
  timestamp : String
  date : String
  model : Option String
  input_tokens : Int
  output_tokens : Int
  cache_read_tokens : Int
  cache_creation_tokens : Int
  total_tokens : Int
deriving DecidableEq

/-- A per-model token accumulator (the dict created at source lines
172–175). -/
structure Bucket where
  input_tokens : Int
  output_tokens : Int
  cache_read_tokens : Int
  cache_creation_tokens : Int
deriving DecidableEq

def zeroBucket : Bucket := ⟨0, 0, 0, 0⟩

/-- The `type` dispatch (source lines 177–184): accumulate into the field
selected by the `type` attribute; an unrecognized type changes nothing. -/
def addToBucket (b : Bucket) (token_type : Json) (value : Int) : Bucket :=
  if jsonEqStr token_type "input" then
    { b with input_tokens := b.input_tokens + value }
  else if jsonEqStr token_type "output" then
    { b with output_tokens := b.output_tokens + value }
  else if jsonEqStr token_type "cacheRead" then
    { b with cache_read_tokens := b.cache_read_tokens + value }
  else if jsonEqStr token_type "cacheCreation" then
    { b with cache_creation_tokens := b.cache_creation_tokens + value }
  else b

/-- Update the first binding of `model` (Python dicts have unique keys, so
there is at most one). -/
def updateFirst : List (Option String × Bucket) → Option String → Json → Int →
    List (Option String × Bucket)
  | [], _, _, _ => []
  | (k, b) :: rest, model, tt, v =>
    if k == model then (k, addToBucket b tt v) :: rest
    else (k, b) :: updateFirst rest model tt v

/-- `if model not in per_model: per_model[model] = {zeros}` followed by the
`+=` dispatch — note the zero bucket is created even when the `type`
attribute matches no token kind. Insertion order is preserved, as for a
Python dict. -/
def bumpModel (pm : List (Option String × Bucket)) (model : Option String)
    (token_type : Json) (value : Int) : List (Option String × Bucket) :=
  let pm' := if pm.any (fun kv => kv.1 == model) then pm else pm ++ [(model, zeroBucket)]
  updateFirst pm' model token_type value

/-- One step of the dict comprehension
`{a["key"]: a.get("value", {}).get("stringValue") for a in ...}`:
the key subscript raises `TypeError` on a non-dict and `KeyError` when
absent; a list/dict key value is unhashable (`TypeError`); a non-dict
`value` field raises `AttributeError` on the inner `.get`. -/
def attrStep (a : Json) : Except PyErr (Json × Json) :=
  match a with
  | .obj items =>
    match items.find? (fun kv => kv.1 == "key") with
    | none => .error .keyError
    | some kv =>
      match kv.2 with
      | .arr _ => .error .typeError
      | .obj _ => .error .typeError
      | k => do
        let v1 ← pyGetD a "value" (.obj [])
        let v2 ← pyGetD v1 "stringValue" .null
        .ok (k, v2)
  | _ => .error .typeError

/-- The whole attribute dict comprehension, as the ordered list of
inserted (key, value) pairs. -/
def buildAttrs (l : List Json) : Except PyErr (List (Json × Json)) :=
  l.mapM attrStep

/-- Dict lookup `attrs.get(k)` / `attrs.get(k, default)` for the string
key `k`: on duplicate insertions the last wins, and only a string key can
equal a string. Returns `none` when absent (caller supplies the default). -/
def attrsGet (attrs : List (Json × Json)) (k : String) : Option Json :=
  (attrs.reverse.find? (fun kv => jsonEqStr kv.1 k)).map (·.2)

/-- `normalize_model_name(attrs.get("model"))` where the argument is an
arbitrary decoded value or `None`: `if not raw: return None` absorbs every
falsy value; a truthy string is normalized; any other truthy value raises
`AttributeError` on `raw.lower()`. -/
def normalizePy (raw : Json) : Except PyErr (Option String) :=
  if pyTruthy raw then
    match raw with
    | .str s => .ok (some ⟨normChars s.data⟩)
    | _ => .error .attributeError
  else .ok none

/-- The `has_metrics` generator expression (source lines 139–144). It runs
OUTSIDE the `try` block: `any(...)` over the nested iteration,
short-circuiting at the first truthy `scope.get("metrics")`; a shape error
reached while iterating raises out of `parse_otel_metrics`. -/
def hasMetricsCheck (data : Json) : Except PyErr Bool := do
  let rmsV ← pyGetD data "resourceMetrics" (.arr [])
  let rms ← pyIter rmsV
  rms.anyM fun rm => do
    let scopesV ← pyGetD rm "scopeMetrics" (.arr [])
    let scopes ← pyIter scopesV
    scopes.anyM fun scope => do
      let m ← pyGetD scope "metrics" .null
      pure (pyTruthy m)

/-- Running accumulation state of the try block: `latest_time_nano` and
`per_model`. -/
structure ParseSt where
  latest : Int
  perModel : List (Option String × Bucket)

/-- `time_nano = int(dp.get("timeUnixNano", 0)); if time_nano > latest:`
(source lines 158–161), for one data point. -/
def dpTimeStep (acc : Int) (dp : Json) : Except PyErr Int := do
  let tJ ← pyGetD dp "timeUnixNano" (.num 0)
  let t ← pyInt tJ
  pure (if acc < t then t else acc)

/-- The token-usage accumulation for one data point (source lines
164–184): `value = int(dp.get("asDouble", dp.get("asInt", 0)))` (the inner
`get` is evaluated first), the attribute dict, the `type` and `model`
attributes, normalization, bucket update. -/
def dpTokenStep (pm : List (Option String × Bucket)) (dp : Json) :
    Except PyErr (List (Option String × Bucket)) := do
  let innerJ ← pyGetD dp "asInt" (.num 0)
  let vJ ← pyGetD dp "asDouble" innerJ
  let value ← pyInt vJ
  let attrsV ← pyGetD dp "attributes" (.arr [])
  let attrsL ← pyIter attrsV
  let attrs ← buildAttrs attrsL
  let token_type := (attrsGet attrs "type").getD (.str "")
  let modelJ := (attrsGet attrs "model").getD .null
  let model ← normalizePy modelJ
  pure (bumpModel pm model token_type value)

/-- One metric entry (source lines 154–184): read `name` and
`sum.dataPoints`, scan all data points for the max timestamp, and for the
token-usage counter run the token accumulation over the same points. -/
def metricStep (st : ParseSt) (metric : Json) : Except PyErr ParseSt := do
  let nameJ ← pyGetD metric "name" (.str "")
  let sumJ ← pyGetD metric "sum" (.obj [])
  let dpsJ ← pyGetD sumJ "dataPoints" (.arr [])
  let dps ← pyIter dpsJ
  let latest ← dps.foldlM dpTimeStep st.latest
  if jsonEqStr nameJ "claude_code.token.usage" then do
    let pm ← dps.foldlM dpTokenStep st.perModel
    pure ⟨latest, pm⟩
  else pure ⟨latest, st.perModel⟩

def scopeStep (st : ParseSt) (scope : Json) : Except PyErr ParseSt := do
  let msV ← pyGetD scope "metrics" (.arr [])
  let ms ← pyIter msV
  ms.foldlM metricStep st

def rmStep (st : ParseSt) (rm : Json) : Except PyErr ParseSt := do
  let scV ← pyGetD rm "scopeMetrics" (.arr [])
  let sc ← pyIter scV
  sc.foldlM scopeStep st

/-- The accumulation phase of the try block (source lines 148–184). -/
def tryCore (data : Json) : Except PyErr ParseSt := do
  let rmsV ← pyGetD data "resourceMetrics" (.arr [])
  let rms ← pyIter rmsV
  rms.foldlM rmStep ⟨0, []⟩

/-- Timestamp resolution (source lines 186–196): the max data-point
timestamp if positive, else the (truthy) fallback date with a synthetic
midnight time, else now. Returns the `(timestamp, date)` pair. -/
def resolveTs (env : Env) (fallback_date : Option String) (latest : Int) :
    String × String :=
  if 0 < latest then (env.fromtimestampIso latest, env.fromtimestampDate latest)
  else
    match fallback_date with
    | some fd => if fd = "" then (env.nowIso, env.nowDate) else (fd ++ "T00:00:00", fd)
    | none => (env.nowIso, env.nowDate)

/-- Record emission (source lines 198–216): nothing when no bucket
received token data, else one record per bucket with `total` computed as
the sum of its four counts. -/
def finishRecords (env : Env) (fallback_date : Option String) (st : ParseSt) :
    List Record :=
  if st.perModel.isEmpty then []
  else
    st.perModel.map fun kv =>
      { timestamp := (resolveTs env fallback_date st.latest).1,
        date := (resolveTs env fallback_date st.latest).2, model := kv.1,
        input_tokens := kv.2.input_tokens, output_tokens := kv.2.output_tokens,
        cache_read_tokens := kv.2.cache_read_tokens,
        cache_creation_tokens := kv.2.cache_creation_tokens,
        total_tokens := kv.2.input_tokens + kv.2.output_tokens
          + kv.2.cache_read_tokens + kv.2.cache_creation_tokens }

/-- `parse_otel_metrics(data, fallback_date)` (source lines 131–220).
Non-dict input and payloads without a `"resourceMetrics"` key emit no
records. The `has_metrics` pre-check runs OUTSIDE the try block, so an
exception it raises escapes to the caller (`.error`). Everything after it
is inside `try: ... except Exception: return []`, so its exceptions
become `.ok []`. -/
def parse_otel_metrics (env : Env) (data : Json) (fallback_date : Option String) :
    Except PyErr (List Record) :=
  match data with
  | .obj items =>
    if hasKeyB items "resourceMetrics" then
      match hasMetricsCheck data with
      | .error e => .error e
      | .ok false => .ok []
      | .ok true =>
        match (tryCore data).map (finishRecords env fallback_date) with
        | .ok recs => .ok recs
        | .error _ => .ok []
    else .ok []
  | _ => .ok []

/-! ### The sync driver `sync_json_to_db` (source lines 223–278)

One source file is its glob path, its basename (`Path(json_file).name`),
and its current lines; each line is the result of `json.loads` on it
(`none` = `json.JSONDecodeError`, which the per-line `except` skips).
The database state is the fact table (a list, append-only inserts) and the
`sync_state` table as a total map path → `last_line` (a missing row reads
as 0, exactly `row[0] if row else 0`; `INSERT OR REPLACE` is pointwise
update). All inserts run in one implicit transaction committed at the end;
an exception escaping the function (an uncaught parse error) means
`conn.commit()` is never reached and the transaction rolls back, so the
model returns `.error` and discards the uncommitted state. -/

structure SyncFile where
  path : String
  name : String
  lines : List (Option Json)

structure DbState where
  metrics : List Record
  syncState : String → Nat

/-- `fallback_date = filename[8:-6] if filename.startswith("metrics-") and
filename.endswith(".jsonl")` (source lines 236–238). -/
def fallbackOf (name : String) : Option String :=
  if "metrics-".data.isPrefixOf name.data && ".jsonl".data.isSuffixOf name.data then
    some ⟨(name.data.take (name.data.length - 6)).drop 8⟩
  else none

/-- The per-line body of the inner sync loop (source lines 251–268): a
line that fails `json.loads` is skipped (`except json.JSONDecodeError:
continue`); otherwise the parser's records are appended to the batch of
inserts. An exception the parser lets escape aborts the whole sync. -/
def lineStep (env : Env) (fb : Option String) (acc : List Record) (line : Option Json) :
    Except PyErr (List Record) :=
  match line with
  | none => .ok acc
  | some data => do
    let recs ← parse_otel_metrics env data fb
    .ok (acc ++ recs)

/-- The per-file body of the sync loop (source lines 234–273): read the
resume offset, take the strictly-new lines, skip the file entirely when
there are none (`continue` — the cursor row is NOT rewritten), otherwise
parse each new line, insert every resulting record, and upsert the cursor
to the file's full line count. -/
def syncFile (env : Env) (st : DbState) (f : SyncFile) : Except PyErr (DbState × Nat) :=
  let last := st.syncState f.path
  let newLines := f.lines.drop last
  if newLines.isEmpty then .ok (st, 0)
  else
    match newLines.foldlM (lineStep env (fallbackOf f.name)) ([] : List Record) with
    | .error e => .error e
    | .ok recs =>
      .ok ({ metrics := st.metrics ++ recs,
             syncState := fun p => if p = f.path then f.lines.length else st.syncState p },
           recs.length)

/-- One file of the outer loop, threading the running `total_new`. -/
def fileStep (env : Env) (acc : DbState × Nat) (f : SyncFile) :
    Except PyErr (DbState × Nat) := do
  let r ← syncFile env acc.1 f
  .ok (r.1, acc.2 + r.2)

/-- `sync_json_to_db()` over the sorted glob result: fold the per-file
body across the files, accumulating `total_new` (the count of inserted
records, reported by the final console message). A missing `RAW_DIR` is
the empty file list. -/
def sync_json_to_db (env : Env) (st : DbState) (files : List SyncFile) :
    Except PyErr (DbState × Nat) :=
  files.foldlM (fileStep env) (st, 0)

/-! ### The aggregation queries of `get_stats` (source lines 306–386)

The stored `date` column holds ISO `YYYY-MM-DD` strings compared with
SQLite TEXT `>=`/`<=`; window boundaries come from
`(datetime.now() - timedelta(days=k)).strftime("%Y-%m-%d")`. ISO date
strings under lexicographic order are order-isomorphic to day numbers and
`timedelta` subtraction is day-number subtraction, so this layer embeds a
stored date as an `Int` day index and `today` as the day index of
`datetime.now()`; `days` is the query's window length argument. -/

/-- One row of the `metrics` fact table as the queries see it. -/
structure Row where
  date : Int
  timestamp : String
  model : Option String
  input_tokens : Int
  output_tokens : Int
  cache_read_tokens : Int
  cache_creation_tokens : Int
  total_tokens : Int
deriving DecidableEq

/-- `CAST(strftime('%H', timestamp) AS INTEGER)`: the hour field of an
ISO-8601 `YYYY-MM-DDTHH:MM:SS...` string, `none` (SQL NULL) when the
string is not in that shape (this models SQLite's datetime parsing only as
far as the hour digits; no claim depends on finer validation). -/
def hourOf (ts : String) : Option Int :=
  match ts.data.drop 10 with
  | sep :: h1 :: h2 :: _ =>
    if (sep = 'T' || sep = ' ') && h1.isDigit && h2.isDigit
        && ((ts.data.take 10).all fun c => c.isDigit || c = '-') then
      some (10 * (h1.toNat - 48) + (h2.toNat - 48))
    else none
  | _ => none

/-- First-occurrence deduplication: the distinct keys of a `GROUP BY`, in
first-appearance order (SQLite's output order is then fixed by the query's
`ORDER BY`; for ties the model keeps this deterministic order, a
refinement of SQLite's unspecified tie order). -/
def keysOfFwd [DecidableEq κ] (l : List κ) : List κ :=
  l.foldl (fun acc k => if k ∈ acc then acc else acc ++ [k]) []

/-- Insert into a sorted list (auxiliary to `insSort`). -/
def insertOrd (le : α → α → Bool) (a : α) : List α → List α
  | [] => [a]
  | b :: rest => if le a b then a :: b :: rest else b :: insertOrd le a rest

/-- Insertion sort by a boolean "should come no later than" relation,
modelling `ORDER BY` (stable; ties keep group order). -/
def insSort (le : α → α → Bool) : List α → List α
  | [] => []
  | a :: rest => insertOrd le a (insSort le rest)

/-- One `by_model` output row: `SELECT model, COUNT(*), SUM(input),
SUM(output), SUM(cache_read), SUM(cache_creation)` (plus the hidden
`SUM(total_tokens)` sort key of its `ORDER BY`). -/
structure ModelRow where
  model : Option String
  reqs : Nat
  input_tokens : Int
  output_tokens : Int
  cache_read_tokens : Int
  cache_creation_tokens : Int
  total_sort_key : Int
deriving DecidableEq

/-- One `daily_breakdown` output row. -/
structure DailyRow where
  date : Int
  reqs : Nat
  input_tokens : Int
  output_tokens : Int
  cache_read_tokens : Int
  cache_creation_tokens : Int
deriving DecidableEq

/-- The dict returned by `get_stats` (source lines 370–386). -/
structure StatsSummary where
  request_count : Nat
  input_tokens : Int
  output_tokens : Int
  cache_read_tokens : Int
  cache_creation_tokens : Int
  total_tokens : Int
  by_model : List ModelRow
  by_hour : List (Option Int × Nat)
  daily_breakdown : List DailyRow
  prev_requests : Nat
  prev_input : Int
  prev_output : Int
  prev_cache_read : Int
  prev_cache_create : Int

def sumBy (rows : List Row) (f : Row → Int) : Int :=
  (rows.map f).foldl (· + ·) 0

/-- `get_stats(conn, days, label)` (source lines 306–386): the current
window filter is only `date >= start_date` with
`start_date = today - (days - 1)` — there is no upper bound — and the
previous-period filter is `prev_start <= date <= prev_end` with
`prev_start = today - (2*days - 1)` and `prev_end = today - days`. -/
def get_stats (today : Int) (days : Int) (rows : List Row) : StatsSummary :=
  let start_date := today - (days - 1)
  let cur := rows.filter (fun r => start_date ≤ r.date)
  let models := keysOfFwd (cur.map (·.model))
  let by_model := insSort (fun a b => b.total_sort_key ≤ a.total_sort_key)
    (models.map fun m =>
      let g := cur.filter (fun r => r.model = m)
      { model := m, reqs := g.length,
        input_tokens := sumBy g (·.input_tokens),
        output_tokens := sumBy g (·.output_tokens),
        cache_read_tokens := sumBy g (·.cache_read_tokens),
        cache_creation_tokens := sumBy g (·.cache_creation_tokens),
        total_sort_key := sumBy g (·.total_tokens) })
  let hours := keysOfFwd (cur.map (fun r => hourOf r.timestamp))
  let by_hour := insSort
    (fun a b => match a.1, b.1 with
      | none, _ => true
      | some _, none => false
      | some x, some y => x ≤ y)
    (hours.map fun h => (h, (cur.filter (fun r => hourOf r.timestamp = h)).length))
  let dates := keysOfFwd (cur.map (·.date))
  let daily := insSort (fun a b => b.date ≤ a.date)
    (dates.map fun d =>
      let g := cur.filter (fun r => r.date = d)
      ({ date := d, reqs := g.length,
         input_tokens := sumBy g (·.input_tokens),
         output_tokens := sumBy g (·.output_tokens),
         cache_read_tokens := sumBy g (·.cache_read_tokens),
         cache_creation_tokens := sumBy g (·.cache_creation_tokens) } : DailyRow))
  let prev_start := today - (2 * days - 1)
  let prev_end := today - days
  let prev := rows.filter (fun r => prev_start ≤ r.date ∧ r.date ≤ prev_end)
  { request_count := cur.length,
    input_tokens := sumBy cur (·.input_tokens),
    output_tokens := sumBy cur (·.output_tokens),
    cache_read_tokens := sumBy cur (·.cache_read_tokens),
    cache_creation_tokens := sumBy cur (·.cache_creation_tokens),
    total_tokens := sumBy cur (·.total_tokens),
    by_model := by_model,
    by_hour := by_hour,
    daily_breakdown := daily,
    prev_requests := prev.length,
    prev_input := sumBy prev (·.input_tokens),
    prev_output := sumBy prev (·.output_tokens),
    prev_cache_read := sumBy prev (·.cache_read_tokens),
    prev_cache_create := sumBy prev (·.cache_creation_tokens) }

/-! ### The aggregate cost figures `print_stats` reports
(source lines 415–424 and 488–491) -/

/-- The model-aware current-window total: `for model, ... in
stats["by_model"]: total_cost += compute_cost(inp, out, cr, cc, model)`. -/
def reported_total_cost (s : StatsSummary) : ℚ :=
  s.by_model.foldl
    (fun acc g => acc + compute_cost g.input_tokens g.output_tokens
      g.cache_read_tokens g.cache_creation_tokens g.model) 0

/-- The previous-period cost: `compute_cost(stats["prev_input"], ...)`
with NO model argument, i.e. the Python default `model=None`. -/
def reported_prev_cost (s : StatsSummary) : ℚ :=
  compute_cost s.prev_input s.prev_output s.prev_cache_read s.prev_cache_create none

/-- The per-day cost of the daily-breakdown table: also computed with no
model argument. -/
def reported_daily_cost (d : DailyRow) : ℚ :=
  compute_cost d.input_tokens d.output_tokens d.cache_read_tokens
    d.cache_creation_tokens none

/-- Defined from the SPEC's words (§4.5), for comparison with the code:
"Cost MUST be computed per model bucket and then summed across buckets
when reporting an aggregate total". Given the rows of a window, group by
model and sum each bucket's cost under its own model's rates. -/
def spec_per_bucket_cost (rows : List Row) : ℚ :=
  ((keysOfFwd (rows.map (·.model))).map fun m =>
    let g := rows.filter (fun r => r.model = m)
    compute_cost (sumBy g (·.input_tokens)) (sumBy g (·.output_tokens))
      (sumBy g (·.cache_read_tokens)) (sumBy g (·.cache_creation_tokens)) m).foldl (· + ·) 0

/-! ### List helper lemmas for the aggregation queries -/

theorem mem_insertOrd {le : α → α → Bool} {x a : α} {l : List α} :
    x ∈ insertOrd le a l ↔ x = a ∨ x ∈ l := by
  induction l with
  | nil => simp [insertOrd]
  | cons b rest ih =>
    simp only [insertOrd]
    split
    · simp
    · simp only [List.mem_cons, ih]
      tauto

theorem mem_insSort {le : α → α → Bool} {x : α} {l : List α} :
    x ∈ insSort le l ↔ x ∈ l := by
  induction l with
  | nil => simp [insSort]
  | cons a rest ih =>
    simp [insSort, mem_insertOrd, ih]

theorem mem_keysFold [DecidableEq κ] {x : κ} (l : List κ) (acc : List κ) :
    x ∈ l.foldl (fun acc k => if k ∈ acc then acc else acc ++ [k]) acc ↔
      x ∈ acc ∨ x ∈ l := by
  induction l generalizing acc with
  | nil => simp
  | cons k rest ih =>
    simp only [List.foldl_cons]
    rw [ih]
    by_cases hk : k ∈ acc
    · simp only [if_pos hk, List.mem_cons]
      constructor
      · tauto
      · rintro (h | h | h)
        · exact Or.inl h
        · exact Or.inl (h ▸ hk)
        · exact Or.inr h
    · simp only [if_neg hk, List.mem_append, List.mem_singleton, List.mem_cons]
      tauto

theorem mem_keysOfFwd [DecidableEq κ] {x : κ} {l : List κ} :
    x ∈ keysOfFwd l ↔ x ∈ l := by
  rw [keysOfFwd, mem_keysFold]
  simp

theorem decide_and_swap {p q p' q' : Prop} [Decidable p] [Decidable q]
    [Decidable p'] [Decidable q'] (h1 : p ↔ q') (h2 : q ↔ p') :
    (decide p && decide q) = decide (p' ∧ q') := by
  rw [Bool.eq_iff_iff]
  simp only [Bool.and_eq_true, decide_eq_true_eq]
  rw [h1, h2]
  exact and_comm

/-! ### C6: the aggregation windows -/

/-- A store row dated 100 days after `today = 0`. -/
def rFutureRow : Row := ⟨100, "", none, 1, 0, 0, 0, 1⟩

/-- A store row dated `today = 0`. -/
def rTodayRow : Row := ⟨0, "2026-01-01T10:00:00", some "opus-4-5", 2, 3, 4, 5, 14⟩

/-- C6 counterexample: the claim says a record dated outside the closed
interval `[today - window_days + 1, today]` — "including one dated after
today" — contributes to none of the current-window figures. But the
current-window query is only `date >= start_date`, with no upper bound:
with `today = 0` and `window_days = 1` a record dated day 100 is counted
(`request_count = 1`), although day 100 is outside `[0, 0]`. -/
theorem c6_counterexample :
    (get_stats 0 1 [rFutureRow]).request_count = 1
    ∧ ¬ ((0 : Int) - 1 + 1 ≤ rFutureRow.date ∧ rFutureRow.date ≤ 0) := by
  constructor
  · decide
  · decide

/-- C6 as amended: for every `window_days` and store contents, the
current-window figures (request count, the five token sums, and every
`by_model`, `by_hour` and `daily_breakdown` group row) aggregate exactly
the records with `today - window_days + 1 ≤ date` — a half-line with NO
upper bound, so future-dated records are included — while the
previous-period figures aggregate exactly the records in the closed
interval `[today - 2*window_days + 1, today - window_days]`, as claimed. -/
theorem c6_amended_window (today days : Int) (rows : List Row) :
    ((get_stats today days rows).request_count
        = (rows.filter fun r => decide (today - days + 1 ≤ r.date)).length
      ∧ (get_stats today days rows).input_tokens
        = sumBy (rows.filter fun r => decide (today - days + 1 ≤ r.date)) (·.input_tokens)
      ∧ (get_stats today days rows).output_tokens
        = sumBy (rows.filter fun r => decide (today - days + 1 ≤ r.date)) (·.output_tokens)
      ∧ (get_stats today days rows).cache_read_tokens
        = sumBy (rows.filter fun r => decide (today - days + 1 ≤ r.date)) (·.cache_read_tokens)
      ∧ (get_stats today days rows).cache_creation_tokens
        = sumBy (rows.filter fun r => decide (today - days + 1 ≤ r.date)) (·.cache_creation_tokens)
      ∧ (get_stats today days rows).total_tokens
        = sumBy (rows.filter fun r => decide (today - days + 1 ≤ r.date)) (·.total_tokens))
    ∧ ((get_stats today days rows).prev_requests
        = (rows.filter fun r =>
            decide (today - 2 * days + 1 ≤ r.date ∧ r.date ≤ today - days)).length
      ∧ (get_stats today days rows).prev_input
        = sumBy (rows.filter fun r =>
            decide (today - 2 * days + 1 ≤ r.date ∧ r.date ≤ today - days)) (·.input_tokens)
      ∧ (get_stats today days rows).prev_output
        = sumBy (rows.filter fun r =>
            decide (today - 2 * days + 1 ≤ r.date ∧ r.date ≤ today - days)) (·.output_tokens)
      ∧ (get_stats today days rows).prev_cache_read
        = sumBy (rows.filter fun r =>
            decide (today - 2 * days + 1 ≤ r.date ∧ r.date ≤ today - days)) (·.cache_read_tokens)
      ∧ (get_stats today days rows).prev_cache_create
        = sumBy (rows.filter fun r =>
            decide (today - 2 * days + 1 ≤ r.date ∧ r.date ≤ today - days)) (·.cache_creation_tokens))
    ∧ (∀ g ∈ (get_stats today days rows).by_model,
        g.reqs = (rows.filter fun r =>
            decide ((today - days + 1 ≤ r.date) ∧ r.model = g.model)).length
      ∧ g.input_tokens = sumBy (rows.filter fun r =>
            decide ((today - days + 1 ≤ r.date) ∧ r.model = g.model)) (·.input_tokens)
      ∧ g.output_tokens = sumBy (rows.filter fun r =>
            decide ((today - days + 1 ≤ r.date) ∧ r.model = g.model)) (·.output_tokens)
      ∧ g.cache_read_tokens = sumBy (rows.filter fun r =>
            decide ((today - days + 1 ≤ r.date) ∧ r.model = g.model)) (·.cache_read_tokens)
      ∧ g.cache_creation_tokens = sumBy (rows.filter fun r =>
            decide ((today - days + 1 ≤ r.date) ∧ r.model = g.model)) (·.cache_creation_tokens))
    ∧ (∀ p ∈ (get_stats today days rows).by_hour,
        p.2 = (rows.filter fun r =>
            decide ((today - days + 1 ≤ r.date) ∧ hourOf r.timestamp = p.1)).length)
    ∧ (∀ d ∈ (get_stats today days rows).daily_breakdown,
        (today - days + 1 ≤ d.date)
      ∧ d.reqs = (rows.filter fun r =>
            decide ((today - days + 1 ≤ r.date) ∧ r.date = d.date)).length
      ∧ d.input_tokens = sumBy (rows.filter fun r =>
            decide ((today - days + 1 ≤ r.date) ∧ r.date = d.date)) (·.input_tokens)
      ∧ d.output_tokens = sumBy (rows.filter fun r =>
            decide ((today - days + 1 ≤ r.date) ∧ r.date = d.date)) (·.output_tokens)
      ∧ d.cache_read_tokens = sumBy (rows.filter fun r =>
            decide ((today - days + 1 ≤ r.date) ∧ r.date = d.date)) (·.cache_read_tokens)
      ∧ d.cache_creation_tokens = sumBy (rows.filter fun r =>
            decide ((today - days + 1 ≤ r.date) ∧ r.date = d.date)) (·.cache_creation_tokens)) := by
  have hcur : (rows.filter fun r => decide (today - (days - 1) ≤ r.date))
      = rows.filter fun r => decide (today - days + 1 ≤ r.date) :=
    List.filter_congr (fun x _ => decide_eq_decide.mpr (by omega))
  have hprev : (rows.filter fun r =>
        decide (today - (2 * days - 1) ≤ r.date ∧ r.date ≤ today - days))
      = rows.filter fun r => decide (today - 2 * days + 1 ≤ r.date ∧ r.date ≤ today - days) :=
    List.filter_congr (fun x _ => decide_eq_decide.mpr (by omega))
  refine ⟨⟨?_, ?_, ?_, ?_, ?_, ?_⟩, ⟨?_, ?_, ?_, ?_, ?_⟩, ?_, ?_, ?_⟩
  · simp only [get_stats]
    rw [hcur]
  · simp only [get_stats]
    rw [hcur]
  · simp only [get_stats]
    rw [hcur]
  · simp only [get_stats]
    rw [hcur]
  · simp only [get_stats]
    rw [hcur]
  · simp only [get_stats]
    rw [hcur]
  · simp only [get_stats]
    rw [hprev]
  · simp only [get_stats]
    rw [hprev]
  · simp only [get_stats]
    rw [hprev]
  · simp only [get_stats]
    rw [hprev]
  · simp only [get_stats]
    rw [hprev]
  · intro g hg
    simp only [get_stats, mem_insSort] at hg
    obtain ⟨m, hm, rfl⟩ := List.mem_map.mp hg
    have hflt : List.filter (fun r => decide (r.model = m))
        (List.filter (fun r => decide (today - (days - 1) ≤ r.date)) rows)
        = rows.filter (fun r => decide ((today - days + 1 ≤ r.date) ∧ r.model = m)) := by
      rw [List.filter_filter]
      exact List.filter_congr fun x _ => decide_and_swap Iff.rfl (by omega)
    exact ⟨congrArg List.length hflt, congrArg (sumBy · (·.input_tokens)) hflt,
      congrArg (sumBy · (·.output_tokens)) hflt,
      congrArg (sumBy · (·.cache_read_tokens)) hflt,
      congrArg (sumBy · (·.cache_creation_tokens)) hflt⟩
  · intro p hp
    simp only [get_stats, mem_insSort] at hp
    obtain ⟨h, hh, rfl⟩ := List.mem_map.mp hp
    have hflt : List.filter (fun r => decide (hourOf r.timestamp = h))
        (List.filter (fun r => decide (today - (days - 1) ≤ r.date)) rows)
        = rows.filter (fun r =>
            decide ((today - days + 1 ≤ r.date) ∧ hourOf r.timestamp = h)) := by
      rw [List.filter_filter]
      exact List.filter_congr fun x _ => decide_and_swap Iff.rfl (by omega)
    exact congrArg List.length hflt
  · intro d hd
    simp only [get_stats, mem_insSort] at hd
    obtain ⟨dt, hdt, rfl⟩ := List.mem_map.mp hd
    have hflt : List.filter (fun r => decide (r.date = dt))
        (List.filter (fun r => decide (today - (days - 1) ≤ r.date)) rows)
        = rows.filter (fun r => decide ((today - days + 1 ≤ r.date) ∧ r.date = dt)) := by
      rw [List.filter_filter]
      exact List.filter_congr fun x _ => decide_and_swap Iff.rfl (by omega)
    refine ⟨?_, congrArg List.length hflt, congrArg (sumBy · (·.input_tokens)) hflt,
      congrArg (sumBy · (·.output_tokens)) hflt,
      congrArg (sumBy · (·.cache_read_tokens)) hflt,
      congrArg (sumBy · (·.cache_creation_tokens)) hflt⟩
    have hdt' := mem_keysOfFwd.mp hdt
    obtain ⟨r, hr, hrd⟩ := List.mem_map.mp hdt'
    obtain ⟨hrmem, hrp⟩ := List.mem_filter.mp hr
    simp only [decide_eq_true_eq] at hrp
    show today - days + 1 ≤ dt
    omega

/-- Witness for C6 as amended, at `today = 0`, `window_days = 1` and a
one-row store dated today: the request count matches the window filter,
and the single `by_model` group row matches its filtered aggregate. -/
theorem c6_amended_window_witness :
    (get_stats 0 1 [rTodayRow]).request_count
      = ([rTodayRow].filter fun r => decide ((0 : Int) - 1 + 1 ≤ r.date)).length
    ∧ (⟨some "opus-4-5", 1, 2, 3, 4, 5, 14⟩ : ModelRow).reqs
      = ([rTodayRow].filter fun r =>
          decide ((((0 : Int)) - 1 + 1 ≤ r.date)
            ∧ r.model = (⟨some "opus-4-5", 1, 2, 3, 4, 5, 14⟩ : ModelRow).model)).length :=
  ⟨(c6_amended_window 0 1 [rTodayRow]).1.1,
   ((c6_amended_window 0 1 [rTodayRow]).2.2.1 ⟨some "opus-4-5", 1, 2, 3, 4, 5, 14⟩ (by decide)).1⟩

/-! ### C1: which rates the reported aggregate costs use -/

/-- A previous-window row (`today = 0`, `days = 7`, so the previous window
is `[-13, -7]`): one million input tokens under an opus-family model. -/
def rOpusPrev : Row := ⟨-7, "", some "opus-4-5", 1000000, 0, 0, 0, 1000000⟩

/-- One million input tokens under a haiku-family model, same day. -/
def rHaikuPrev : Row := ⟨-7, "", some "haiku-3-5", 1000000, 0, 0, 0, 1000000⟩

/-- The same two buckets dated `today = 0` (inside the current window). -/
def rOpusCur : Row := ⟨0, "", some "opus-4-5", 1000000, 0, 0, 0, 1000000⟩

def rHaikuCur : Row := ⟨0, "", some "haiku-3-5", 1000000, 0, 0, 0, 1000000⟩

/-- C1, evaluated at the failing input: a previous window holding
1,000,000 input tokens under "opus" and 1,000,000 under "haiku". The
reported previous-window cost calls `compute_cost` once on the pre-summed
totals with no model, so both millions are priced at the default
(opus) input rate: it reports 30 = 2 × 15. Per-bucket summation as the
spec demands (`spec_per_bucket_cost`, and as `print_stats` itself does
for the CURRENT window, third conjunct) gives
`opus_input_rate + haiku_input_rate` = 15 + 0.80 = 79/5, a different
number — so the claim fails on the previous-window trend cost. -/
theorem c1_prev_window_cost_default_rate :
    reported_prev_cost (get_stats 0 7 [rOpusPrev, rHaikuPrev]) = 30
    ∧ spec_per_bucket_cost [rOpusPrev, rHaikuPrev] = 79 / 5
    ∧ reported_total_cost (get_stats 0 7 [rOpusCur, rHaikuCur]) = 79 / 5
    ∧ (30 : ℚ) ≠ 79 / 5 := by
  refine ⟨?_, ?_, ?_, by norm_num⟩
  · norm_num [reported_prev_cost, get_stats, rOpusPrev, rHaikuPrev, sumBy,
      compute_cost, get_pricing, DEFAULT_PRICING, List.filter]
  · simp +decide [spec_per_bucket_cost, rOpusPrev, rHaikuPrev, sumBy, keysOfFwd,
      compute_cost, get_pricing, DEFAULT_PRICING, MODEL_PRICING, List.filter,
      List.lookup, strIn, pyLower, opusKw, sonnetKw, haikuKw, familyList, List.find?,
      List.foldl, List.map, List.isPrefixOf]
    norm_num
  · simp +decide [reported_total_cost, get_stats, rOpusCur, rHaikuCur, sumBy, keysOfFwd,
      compute_cost, get_pricing, DEFAULT_PRICING, MODEL_PRICING, List.filter,
      List.lookup, strIn, pyLower, opusKw, sonnetKw, haikuKw, familyList, List.find?,
      List.foldl, List.map, List.isPrefixOf, insSort, insertOrd, hourOf]
    norm_num

/-! ### C2–C5: parser and sync invariants -/

theorem finishRecords_totalInv (env : Env) (fb : Option String) (st : ParseSt) :
    ∀ r ∈ finishRecords env fb st,
      r.total_tokens
        = r.input_tokens + r.output_tokens + r.cache_read_tokens + r.cache_creation_tokens := by
  intro r hr
  unfold finishRecords at hr
  by_cases hpm : st.perModel.isEmpty
  · rw [if_pos hpm] at hr
    cases hr
  · rw [if_neg hpm] at hr
    obtain ⟨kv, hkv, rfl⟩ := List.mem_map.mp hr
    rfl

theorem parse_records_totalInv (env : Env) (data : Json) (fb : Option String)
    (recs : List Record) (h : parse_otel_metrics env data fb = .ok recs) :
    ∀ r ∈ recs, r.total_tokens
      = r.input_tokens + r.output_tokens + r.cache_read_tokens + r.cache_creation_tokens := by
  cases data with
  | obj items =>
    simp only [parse_otel_metrics] at h
    by_cases hk : hasKeyB items "resourceMetrics"
    · rw [if_pos hk] at h
      cases hmc : hasMetricsCheck (Json.obj items) with
      | error e =>
        rw [hmc] at h
        cases h
      | ok b =>
        rw [hmc] at h
        cases b with
        | false =>
          cases h
          intro r hr
          cases hr
        | true =>
          cases htc : tryCore (Json.obj items) with
          | error e =>
            rw [htc] at h
            simp only [Except.map] at h
            cases h
            intro r hr
            cases hr
          | ok stv =>
            rw [htc] at h
            simp only [Except.map] at h
            cases h
            exact finishRecords_totalInv env fb stv
    · rw [if_neg hk] at h
      cases h
      intro r hr
      cases hr
  | null =>
    cases h
    intro r hr
    cases hr
  | bool b =>
    cases h
    intro r hr
    cases hr
  | num q =>
    cases h
    intro r hr
    cases hr
  | str s =>
    cases h
    intro r hr
    cases hr
  | arr l =>
    cases h
    intro r hr
    cases hr

theorem lineFold_totalInv (env : Env) (fb : Option String) :
    ∀ (lines : List (Option Json)) (acc recs : List Record),
    lines.foldlM (lineStep env fb) acc = .ok recs →
    (∀ r ∈ acc, r.total_tokens
      = r.input_tokens + r.output_tokens + r.cache_read_tokens + r.cache_creation_tokens) →
    ∀ r ∈ recs, r.total_tokens
      = r.input_tokens + r.output_tokens + r.cache_read_tokens + r.cache_creation_tokens := by
  intro lines
  induction lines with
  | nil =>
    intro acc recs h hacc
    simp only [List.foldlM] at h
    cases h
    exact hacc
  | cons line rest ih =>
    intro acc recs h hacc
    simp only [List.foldlM] at h
    cases line with
    | none =>
      simp only [lineStep] at h
      exact ih acc recs h hacc
    | some data =>
      simp only [lineStep] at h
      cases hp : parse_otel_metrics env data fb with
      | error e =>
        rw [hp] at h
        cases h
      | ok newRecs =>
        rw [hp] at h
        refine ih _ recs h ?_
        intro r hr
        rcases List.mem_append.mp hr with hr | hr
        · exact hacc r hr
        · exact parse_records_totalInv env data fb newRecs hp r hr

/-- One successful `syncFile` pass: the cursor never decreases at any
path, ends at least at the file's line count for the file's own path, and
the fact table grows by exactly the `n` freshly parsed records, all of
which satisfy the total invariant. -/
theorem syncFile_props (env : Env) (st : DbState) (f : SyncFile) (st' : DbState) (n : Nat)
    (h : syncFile env st f = .ok (st', n)) :
    (∀ p, st.syncState p ≤ st'.syncState p)
    ∧ f.lines.length ≤ st'.syncState f.path
    ∧ ∃ new, st'.metrics = st.metrics ++ new ∧ n = new.length
        ∧ (∀ r ∈ new, r.total_tokens
            = r.input_tokens + r.output_tokens + r.cache_read_tokens + r.cache_creation_tokens) := by
  unfold syncFile at h
  by_cases he : (f.lines.drop (st.syncState f.path)).isEmpty
  · rw [if_pos he] at h
    cases h
    refine ⟨fun p => le_refl _, ?_, [], by simp, rfl, (by intro r hr; cases hr)⟩
    rw [List.isEmpty_iff, List.drop_eq_nil_iff] at he
    exact he
  · rw [if_neg he] at h
    cases hfold : (f.lines.drop (st.syncState f.path)).foldlM
        (lineStep env (fallbackOf f.name)) ([] : List Record) with
    | error e =>
      rw [hfold] at h
      cases h
    | ok recs =>
      rw [hfold] at h
      cases h
      have hlt : st.syncState f.path < f.lines.length := by
        rw [List.isEmpty_iff] at he
        by_contra hcon
        exact he (List.drop_eq_nil_iff.mpr (by omega))
      refine ⟨?_, ?_, recs, rfl, rfl, ?_⟩
      · intro p
        by_cases hp : p = f.path
        · show st.syncState p ≤ if p = f.path then f.lines.length else st.syncState p
          rw [if_pos hp, hp]
          omega
        · show st.syncState p ≤ if p = f.path then f.lines.length else st.syncState p
          rw [if_neg hp]
      · show f.lines.length ≤ if f.path = f.path then f.lines.length else st.syncState f.path
        rw [if_pos rfl]
      · exact lineFold_totalInv env (fallbackOf f.name) _ [] recs hfold
          (by intro r hr; cases hr)

/-- A successful fold of `fileStep` across a file list, from any initial
state and running count: cursor monotonicity, cursor coverage of every
file, and exact accounting of the appended records. -/
theorem syncFold_props (env : Env) (files : List SyncFile) :
    ∀ (st : DbState) (c0 : Nat) (st' : DbState) (n : Nat),
    files.foldlM (fileStep env) (st, c0) = .ok (st', n) →
    (∀ p, st.syncState p ≤ st'.syncState p)
    ∧ (∀ f ∈ files, f.lines.length ≤ st'.syncState f.path)
    ∧ ∃ new, st'.metrics = st.metrics ++ new ∧ n = c0 + new.length
        ∧ (∀ r ∈ new, r.total_tokens
            = r.input_tokens + r.output_tokens + r.cache_read_tokens + r.cache_creation_tokens) := by
  induction files with
  | nil =>
    intro st c0 st' n h
    simp only [List.foldlM] at h
    cases h
    exact ⟨fun p => le_refl _, (by intro f hf; cases hf),
      [], (by simp), (by simp), (by intro r hr; cases hr)⟩
  | cons f fs ih =>
    intro st c0 st' n h
    simp only [List.foldlM, fileStep] at h
    cases hstep : syncFile env st f with
    | error e =>
      rw [hstep] at h
      cases h
    | ok r =>
      obtain ⟨st1, n1⟩ := r
      rw [hstep] at h
      obtain ⟨hmono1, hcov1, new1, hm1, hn1, hinv1⟩ := syncFile_props env st f st1 n1 hstep
      obtain ⟨hmono2, hcov2, new2, hm2, hn2, hinv2⟩ := ih st1 (c0 + n1) st' n h
      refine ⟨fun p => le_trans (hmono1 p) (hmono2 p), ?_, new1 ++ new2, ?_, ?_, ?_⟩
      · intro g hg
        rcases List.mem_cons.mp hg with hg | hg
        · subst hg
          exact le_trans hcov1 (hmono2 g.path)
        · exact hcov2 g hg
      · rw [hm2, hm1, List.append_assoc]
      · rw [hn2, hn1]
        simp only [List.length_append]
        omega
      · intro r hr
        rcases List.mem_append.mp hr with hr | hr
        · exact hinv1 r hr
        · exact hinv2 r hr

/-- A file with no lines beyond the cursor is skipped whole (`continue`):
state untouched, nothing inserted. -/
theorem syncFile_skip (env : Env) (st : DbState) (f : SyncFile)
    (h : f.lines.length ≤ st.syncState f.path) :
    syncFile env st f = .ok (st, 0) := by
  unfold syncFile
  rw [if_pos (List.isEmpty_iff.mpr (List.drop_eq_nil_iff.mpr h))]

theorem syncFold_skip (env : Env) (files : List SyncFile) :
    ∀ st : DbState, (∀ f ∈ files, f.lines.length ≤ st.syncState f.path) →
    ∀ c0 : Nat, files.foldlM (fileStep env) (st, c0) = .ok (st, c0) := by
  induction files with
  | nil =>
    intro st hcov c0
    rfl
  | cons f fs ih =>
    intro st hcov c0
    simp only [List.foldlM, fileStep]
    rw [syncFile_skip env st f (hcov f (List.mem_cons_self f fs))]
    exact ih st (fun g hg => hcov g (List.mem_cons_of_mem f hg)) c0

/-- C2: for every record the parser emits and for every record the sync
process appends to the store, `total == input + output + cache_read +
cache_creation` — the parser computes `total` as that sum at emission, and
sync inserts the parsed fields verbatim. -/
theorem c2_total_invariant :
    (∀ (env : Env) (data : Json) (fb : Option String) (recs : List Record),
      parse_otel_metrics env data fb = .ok recs →
      ∀ r ∈ recs, r.total_tokens
        = r.input_tokens + r.output_tokens + r.cache_read_tokens + r.cache_creation_tokens)
    ∧ (∀ (env : Env) (st : DbState) (files : List SyncFile) (st' : DbState) (n : Nat),
      sync_json_to_db env st files = .ok (st', n) →
      ∃ new, st'.metrics = st.metrics ++ new
        ∧ ∀ r ∈ new, r.total_tokens
          = r.input_tokens + r.output_tokens + r.cache_read_tokens + r.cache_creation_tokens) := by
  refine ⟨parse_records_totalInv, ?_⟩
  intro env st files st' n h
  obtain ⟨hmono, hcov, new, hm, hn, hinv⟩ := syncFold_props env files st 0 st' n h
  exact ⟨new, hm, hinv⟩

/-- A concrete environment for the witnesses. -/
def envW : Env :=
  ⟨fun _ => "1970-01-01T00:00:01", fun _ => "1970-01-01",
   "2026-02-03T04:05:06", "2026-02-03"⟩

/-- A well-formed OTEL payload holding one token-usage data point: 42
input tokens, no model attribute. -/
def dataW : Json :=
  Json.obj [("resourceMetrics", Json.arr [Json.obj [("scopeMetrics", Json.arr
    [Json.obj [("metrics", Json.arr
      [Json.obj [("name", Json.str "claude_code.token.usage"),
                 ("sum", Json.obj [("dataPoints", Json.arr
                   [Json.obj [("asInt", Json.num 42),
                     ("attributes", Json.arr
                       [Json.obj [("key", Json.str "type"),
                         ("value", Json.obj [("stringValue", Json.str "input")])]])]])])]])]])]])]

/-- The record the parser emits for `dataW` with no fallback date (now
branch of the timestamp resolution). -/
def recW : Record := ⟨"2026-02-03T04:05:06", "2026-02-03", none, 42, 0, 0, 0, 42⟩

/-- Witness for C2: the invariant instantiated at the record parsed from
the concrete payload `dataW`. -/
theorem c2_total_invariant_witness :
    recW.total_tokens
      = recW.input_tokens + recW.output_tokens + recW.cache_read_tokens
        + recW.cache_creation_tokens :=
  c2_total_invariant.1 envW dataW none [recW] (by rfl) recW (by simp)

/-- C3: sync is idempotent with respect to already-consumed lines. Only
lines strictly beyond the persisted `last_line` are read (`lines[last_line:]`),
so after any successful sync over any set of files, running sync again on
the unchanged files succeeds, inserts zero records, and leaves the
database state — fact table and cursors — identical. -/
theorem c3_sync_idempotent (env : Env) (st : DbState) (files : List SyncFile)
    (st' : DbState) (n : Nat) (h : sync_json_to_db env st files = .ok (st', n)) :
    sync_json_to_db env st' files = .ok (st', 0) := by
  have props := syncFold_props env files st 0 st' n h
  exact syncFold_skip env files st' props.2.1 0

/-- A date-stamped source file holding one line, the payload `dataW`. -/
def fileW : SyncFile :=
  ⟨"/raw/metrics-2026-02-03.jsonl", "metrics-2026-02-03.jsonl", [some dataW]⟩

/-- The empty database. -/
def st0W : DbState := ⟨[], fun _ => 0⟩

/-- The record `fileW`'s line parses to (fallback-date branch: midnight
timestamp from the file name). -/
def recFW : Record := ⟨"2026-02-03T00:00:00", "2026-02-03", none, 42, 0, 0, 0, 42⟩

/-- The database after syncing `fileW` into `st0W`. -/
def st1W : DbState :=
  ⟨[recFW], fun p => if p = "/raw/metrics-2026-02-03.jsonl" then 1 else 0⟩

/-- Witness for C3: syncing `fileW` into the empty database ingests one
record (discharged by evaluation), and the second run is a no-op. -/
theorem c3_sync_idempotent_witness :
    sync_json_to_db envW st1W [fileW] = .ok (st1W, 0) :=
  c3_sync_idempotent envW st0W [fileW] st1W 1 (by rfl)

/-- C5: a successful sync returns (as its console-reported `total_new`)
exactly the number of records appended to the fact table; and when no
tracked file has lines beyond its cursor, sync is a no-op: the state is
unchanged and the count is zero. -/
theorem c5_sync_count (env : Env) (st : DbState) (files : List SyncFile)
    (st' : DbState) (n : Nat) (h : sync_json_to_db env st files = .ok (st', n)) :
    (∃ new, st'.metrics = st.metrics ++ new ∧ n = new.length)
    ∧ ((∀ f ∈ files, f.lines.length ≤ st.syncState f.path) → st' = st ∧ n = 0) := by
  obtain ⟨hmono, hcov, new, hm, hn, hinv⟩ := syncFold_props env files st 0 st' n h
  constructor
  · exact ⟨new, hm, by omega⟩
  · intro hskip
    have h2 := syncFold_skip env files st hskip 0
    have h3 := h.symm.trans h2
    simp only [Except.ok.injEq, Prod.mk.injEq] at h3
    exact ⟨h3.1, h3.2⟩

/-- A tracked file with no lines at all. -/
def fileEmptyW : SyncFile := ⟨"/raw/empty.jsonl", "empty.jsonl", []⟩

/-- Witness for C5: syncing `fileW` into the empty store appends exactly
the one counted record, and a sync with no new lines is a no-op with
count zero. -/
theorem c5_sync_count_witness :
    (∃ new, st1W.metrics = st0W.metrics ++ new ∧ 1 = new.length)
    ∧ (st0W = st0W ∧ 0 = 0) :=
  ⟨(c5_sync_count envW st0W [fileW] st1W 1 (by rfl)).1,
   (c5_sync_count envW st0W [fileEmptyW] st0W 0 (by rfl)).2
     (by intro f hf; simp only [List.mem_singleton] at hf; subst hf; exact Nat.le.refl)⟩

/-! ### C4: which exceptions escape the parser -/

/-- A payload whose `resourceMetrics` value is not iterable: the
`has_metrics` pre-check raises `TypeError` before the `try` block. -/
def badPayload : Json := Json.obj [("resourceMetrics", Json.num 1)]

/-- C4 counterexample: the claim says the parser never propagates an
exception for any decoded JSON value. But on `{"resourceMetrics": 1}` the
`has_metrics` generator (source lines 139–144) iterates the integer and
raises `TypeError` OUTSIDE the `try` block, so the exception escapes to
the caller instead of yielding zero records. -/
theorem c4_counterexample :
    parse_otel_metrics envW badPayload none = .error PyErr.typeError := rfl

/-- C4 as amended: the only exceptions `parse_otel_metrics` lets escape
are those raised by the `has_metrics` structural pre-check, which runs
before the `try` block (and only for dict payloads that do have a
`resourceMetrics` key); every exception arising after the pre-check is
caught by `except Exception` and turned into zero records. -/
theorem c4_amended_exceptions_caught (env : Env) (data : Json) (fb : Option String)
    (e : PyErr) (h : parse_otel_metrics env data fb = .error e) :
    (∃ items, data = Json.obj items ∧ hasKeyB items "resourceMetrics" = true)
    ∧ hasMetricsCheck data = .error e := by
  cases data with
  | obj items =>
    simp only [parse_otel_metrics] at h
    by_cases hk : hasKeyB items "resourceMetrics"
    · rw [if_pos hk] at h
      cases hmc : hasMetricsCheck (Json.obj items) with
      | error e2 =>
        rw [hmc] at h
        cases h
        exact ⟨⟨items, rfl, hk⟩, rfl⟩
      | ok b =>
        rw [hmc] at h
        cases b with
        | false => cases h
        | true =>
          cases htc : tryCore (Json.obj items) with
          | error e2 =>
            rw [htc] at h
            simp only [Except.map] at h
            cases h
          | ok stv =>
            rw [htc] at h
            simp only [Except.map] at h
            cases h
    · rw [if_neg hk] at h
      cases h
  | null => cases h
  | bool b => cases h
  | num q => cases h
  | str s => cases h
  | arr l => cases h

/-- Witness for C4 as amended: at `badPayload` the escaping error is
exactly the pre-check's error. -/
theorem c4_amended_witness :
    hasMetricsCheck badPayload = .error PyErr.typeError := by
  obtain ⟨-, hmc⟩ := c4_amended_exceptions_caught envW badPayload none PyErr.typeError rfl
  exact hmc

/-! ### C7: the normalizer's contract -/

/-- C7: the model normalizer satisfies the three claimed properties.
(1) An absent identifier normalizes to absence (`none`), not a
placeholder. (2) An identifier containing the family keyword `"opus"` as
a (first) separator-delimited token followed by the numeric tokens `"4"`
and `"6"` and then a non-numeric token normalizes to `"opus-4-6"` —
stated over the token list the source builds (separators `.` and `:`
mapped to `-`, then split on `-`), with `firstIdx` locating the keyword
token exactly as the source's `next(enumerate(...))` does. (3) An
identifier matching no family keyword (case-insensitive substring) is
returned unchanged. -/
theorem c7_normalizer :
    normalize_model_name none = none
    ∧ (∀ (s : String) (i : Nat) (t : List Char) (rest : List (List Char)),
        strIn opusKw (pyLower s.data) = true →
        firstIdx (· == opusKw) (splitChar '-' (mapReplace s.data)) = some i →
        (splitChar '-' (mapReplace s.data)).drop (i + 1)
          = ['4'] :: ['6'] :: t :: rest →
        isVersionTok t = false →
        normalize_model_name (some s) = some "opus-4-6")
    ∧ (∀ s : String, s ≠ "" →
        strIn opusKw (pyLower s.data) = false →
        strIn sonnetKw (pyLower s.data) = false →
        strIn haikuKw (pyLower s.data) = false →
        normalize_model_name (some s) = some s) := by
  refine ⟨rfl, ?_, ?_⟩
  · intro s i t rest hin hidx hdrop htok
    have hs : s ≠ "" := by
      intro he
      rw [he] at hin
      exact absurd hin (by decide)
    have hfind : familyList.find? (fun fam => strIn fam (pyLower s.data)) = some opusKw := by
      simp [familyList, List.find?, hin]
    have e1 : normChars s.data = "opus-4-6".data := by
      unfold normChars
      rw [hfind]
      simp only [normFam, hidx, versionJoin, hdrop, List.takeWhile, htok]
      decide
    simp only [normalize_model_name]
    rw [if_neg hs, e1]
  · intro s hs h1 h2 h3
    have hfind : familyList.find? (fun fam => strIn fam (pyLower s.data)) = none := by
      simp [familyList, List.find?, h1, h2, h3]
    have e1 : normChars s.data = s.data := by
      unfold normChars
      rw [hfind]
    simp only [normalize_model_name]
    rw [if_neg hs, e1]

/-- Witness for C7 at concrete identifiers: the docstring's own example
shape, an unrecognized identifier, and absence. -/
theorem c7_normalizer_witness :
    normalize_model_name none = none
    ∧ normalize_model_name (some "claude-opus-4-6-v1") = some "opus-4-6"
    ∧ normalize_model_name (some "gpt-4") = some "gpt-4" :=
  ⟨c7_normalizer.1,
   c7_normalizer.2.1 "claude-opus-4-6-v1" 1 ['v', '1'] []
     (by decide) (by decide) (by decide) (by decide),
   c7_normalizer.2.2 "gpt-4" (by decide) (by decide) (by decide) (by decide)⟩

/-! ### C9: idempotence of the normalizer

The canonical outputs of `normChars` are either the input unchanged (no
family keyword), a bare family keyword, or a family keyword joined with
digit version tokens. Re-normalizing each shape reproduces it: the family
keyword is still the first (priority-ordered) match because the appended
version characters are digits and dashes, never letters; splitting
recovers exactly the keyword token followed by the version tokens; and the
version tokens all still satisfy the collection condition. -/

theorem map_fixed {f : Char → Char} : ∀ l : List Char, (∀ c ∈ l, f c = c) → l.map f = l
  | [], _ => rfl
  | c :: cs, h => by
    simp only [List.map_cons]
    rw [h c (List.mem_cons_self c cs), map_fixed cs (fun d hd => h d (List.mem_cons_of_mem c hd))]

theorem isPrefixOf_self_append (l t : List Char) : l.isPrefixOf (l ++ t) = true := by
  induction l with
  | nil => simp
  | cons c cs ih =>
    simp only [List.cons_append, List.isPrefixOf_cons₂, beq_self_eq_true, Bool.true_and]
    exact ih

theorem strIn_of_prefixOf (pat s : List Char) (h : pat.isPrefixOf s = true) :
    strIn pat s = true := by
  cases s with
  | nil =>
    cases pat with
    | nil => rfl
    | cons c cs => simp at h
  | cons c cs =>
    simp only [strIn, h, Bool.true_or]

theorem isPrefixOf_append_ofP (P : Char → Bool) (g : List Char)
    (hg : ∀ c ∈ g, P c = true) (b : List Char) (hb : ∀ c ∈ b, P c = false) :
    ∀ a : List Char, g.isPrefixOf (a ++ b) = g.isPrefixOf a := by
  induction g with
  | nil => intro a; simp
  | cons g0 g' ih =>
    intro a
    cases a with
    | nil =>
      simp only [List.nil_append, List.isPrefixOf_cons_nil]
      cases b with
      | nil => simp
      | cons c cs =>
        simp only [List.isPrefixOf_cons₂]
        have h1 : P g0 = true := hg g0 (List.mem_cons_self g0 g')
        have h2 : P c = false := hb c (List.mem_cons_self c cs)
        have hne : (g0 == c) = false := by
          rw [beq_eq_false_iff_ne]
          intro e
          rw [e] at h1
          rw [h1] at h2
          cases h2
        rw [hne]
        rfl
    | cons a0 a' =>
      simp only [List.cons_append, List.isPrefixOf_cons₂]
      rw [ih (fun c hc => hg c (List.mem_cons_of_mem g0 hc)) a']

theorem strIn_eq_false_ofP (P : Char → Bool) (g0 : Char) (g' : List Char)
    (h1 : P g0 = true) : ∀ b : List Char, (∀ c ∈ b, P c = false) →
    strIn (g0 :: g') b = false := by
  intro b
  induction b with
  | nil => intro _; rfl
  | cons c cs ih =>
    intro hb
    simp only [strIn, List.isPrefixOf_cons₂]
    have h2 : P c = false := hb c (List.mem_cons_self c cs)
    have hne : (g0 == c) = false := by
      rw [beq_eq_false_iff_ne]
      intro e
      rw [e] at h1
      rw [h1] at h2
      cases h2
    rw [hne]
    simp only [Bool.false_and, Bool.false_or]
    exact ih (fun d hd => hb d (List.mem_cons_of_mem c hd))

theorem strIn_append_ofP (P : Char → Bool) (g : List Char) (hg0 : g ≠ [])
    (hg : ∀ c ∈ g, P c = true) (b : List Char) (hb : ∀ c ∈ b, P c = false) :
    ∀ a : List Char, strIn g (a ++ b) = strIn g a := by
  intro a
  induction a with
  | nil =>
    simp only [List.nil_append]
    obtain ⟨g0, g', rfl⟩ : ∃ g0 g', g = g0 :: g' := by
      cases g with
      | nil => exact absurd rfl hg0
      | cons x xs => exact ⟨x, xs, rfl⟩
    rw [strIn_eq_false_ofP P g0 g' (hg g0 (List.mem_cons_self g0 g')) b hb]
    rfl
  | cons a0 a' ih =>
    show (List.isPrefixOf g ((a0 :: a') ++ b) || strIn g (a' ++ b))
      = (List.isPrefixOf g (a0 :: a') || strIn g a')
    rw [isPrefixOf_append_ofP P g hg b hb (a0 :: a'), ih]

theorem splitChar_ne_nil (sep : Char) : ∀ l : List Char, splitChar sep l ≠ []
  | [] => by simp [splitChar]
  | c :: cs => by
    simp only [splitChar]
    cases h : splitChar sep cs with
    | nil => simp
    | cons t ts =>
      by_cases hc : c = sep <;> simp [hc]

theorem splitChar_cons_sep (sep : Char) (b : List Char) :
    splitChar sep (sep :: b) = [] :: splitChar sep b := by
  simp only [splitChar]
  cases h : splitChar sep b with
  | nil => exact absurd h (splitChar_ne_nil sep b)
  | cons t ts => simp

theorem splitChar_append_left (sep : Char) :
    ∀ a b : List Char, (∀ c ∈ a, c ≠ sep) →
    splitChar sep (a ++ b)
      = (a ++ (splitChar sep b).headI) :: (splitChar sep b).tail := by
  intro a
  induction a with
  | nil =>
    intro b _
    simp only [List.nil_append]
    cases h : splitChar sep b with
    | nil => exact absurd h (splitChar_ne_nil sep b)
    | cons t ts => simp
  | cons a0 a' ih =>
    intro b ha
    have ha0 : a0 ≠ sep := ha a0 (List.mem_cons_self a0 a')
    show splitChar sep (a0 :: (a' ++ b)) = _
    simp only [splitChar]
    rw [ih b (fun c hc => ha c (List.mem_cons_of_mem a0 hc))]
    simp [ha0]

theorem splitChar_no_sep (sep : Char) :
    ∀ l : List Char, (∀ c ∈ l, c ≠ sep) → splitChar sep l = [l] := by
  intro l
  induction l with
  | nil => intro _; rfl
  | cons c cs ih =>
    intro h
    simp only [splitChar]
    rw [ih (fun d hd => h d (List.mem_cons_of_mem c hd))]
    simp [h c (List.mem_cons_self c cs)]

theorem splitChar_joinSep (sep : Char) :
    ∀ vs : List (List Char), vs ≠ [] → (∀ v ∈ vs, ∀ c ∈ v, c ≠ sep) →
    splitChar sep (joinSep sep vs) = vs := by
  intro vs
  induction vs with
  | nil => intro h _; exact absurd rfl h
  | cons v rest ih =>
    intro _ hsep
    cases rest with
    | nil =>
      show splitChar sep v = [v]
      exact splitChar_no_sep sep v (hsep v (List.mem_cons_self v []))
    | cons w rest' =>
      show splitChar sep (v ++ sep :: joinSep sep (w :: rest')) = v :: w :: rest'
      rw [splitChar_append_left sep v (sep :: joinSep sep (w :: rest'))
        (hsep v (List.mem_cons_self v (w :: rest')))]
      rw [splitChar_cons_sep sep (joinSep sep (w :: rest'))]
      rw [ih (by simp) (fun u hu c hc => hsep u (List.mem_cons_of_mem v hu) c hc)]
      simp

theorem mem_joinSep (sep : Char) :
    ∀ (vs : List (List Char)) (c : Char), c ∈ joinSep sep vs →
    c = sep ∨ ∃ v ∈ vs, c ∈ v := by
  intro vs
  induction vs with
  | nil => intro c hc; cases hc
  | cons v rest ih =>
    intro c hc
    cases rest with
    | nil =>
      right
      exact ⟨v, List.mem_cons_self v [], hc⟩
    | cons w rest' =>
      rw [show joinSep sep (v :: w :: rest') = v ++ sep :: joinSep sep (w :: rest') from rfl]
        at hc
      rcases List.mem_append.mp hc with hc | hc
      · right
        exact ⟨v, List.mem_cons_self v (w :: rest'), hc⟩
      · rcases List.mem_cons.mp hc with hc | hc
        · exact Or.inl hc
        · rcases ih c hc with h | ⟨u, hu, hcu⟩
          · exact Or.inl h
          · exact Or.inr ⟨u, List.mem_cons_of_mem v hu, hcu⟩

theorem takeWhile_all {p : List Char → Bool} :
    ∀ l : List (List Char), (∀ x ∈ l, p x = true) → l.takeWhile p = l := by
  intro l
  induction l with
  | nil => intro _; rfl
  | cons x xs ih =>
    intro h
    simp only [List.takeWhile, h x (List.mem_cons_self x xs)]
    rw [ih (fun y hy => h y (List.mem_cons_of_mem x hy))]

theorem mem_takeWhile {p : List Char → Bool} :
    ∀ l : List (List Char), ∀ x ∈ l.takeWhile p, x ∈ l ∧ p x = true := by
  intro l
  induction l with
  | nil => intro x hx; cases hx
  | cons y ys ih =>
    intro x hx
    simp only [List.takeWhile] at hx
    cases hp : p y with
    | false =>
      rw [hp] at hx
      cases hx
    | true =>
      rw [hp] at hx
      rcases List.mem_cons.mp hx with hx | hx
      · subst hx
        exact ⟨List.mem_cons_self x ys, hp⟩
      · obtain ⟨h1, h2⟩ := ih x hx
        exact ⟨List.mem_cons_of_mem y h1, h2⟩

theorem splitChar_mem_no_sep (sep : Char) :
    ∀ l : List Char, ∀ p ∈ splitChar sep l, ∀ c ∈ p, c ≠ sep := by
  intro l
  induction l with
  | nil =>
    intro p hp c hc
    simp only [splitChar, List.mem_singleton] at hp
    subst hp
    cases hc
  | cons a as ih =>
    intro p hp c hc
    simp only [splitChar] at hp
    cases h : splitChar sep as with
    | nil => exact absurd h (splitChar_ne_nil sep as)
    | cons t ts =>
      simp only [h] at hp
      by_cases ha : a = sep
      · rw [if_pos ha] at hp
        rcases List.mem_cons.mp hp with hp | hp
        · subst hp
          cases hc
        · exact ih p (h ▸ hp) c hc
      · rw [if_neg ha] at hp
        rcases List.mem_cons.mp hp with hp | hp
        · subst hp
          rcases List.mem_cons.mp hc with hc | hc
          · subst hc
            exact ha
          · exact ih t (h ▸ List.mem_cons_self t ts) c hc
        · exact ih p (h ▸ List.mem_cons_of_mem t hp) c hc

theorem tokChars_not_alpha {vs : List (List Char)}
    (hall : ∀ v ∈ vs, isVersionTok v = true) :
    ∀ c ∈ pyLower ('-' :: joinSep '-' vs), c.isAlpha = false := by
  intro c hc
  simp only [pyLower, List.map_cons, List.mem_cons, List.mem_map] at hc
  rcases hc with hc | ⟨d, hd, rfl⟩
  · subst hc
    decide
  · rcases mem_joinSep '-' vs d hd with rfl | ⟨v, hv, hdv⟩
    · decide
    · have hdig : d.isDigit = true := by
        have ht := hall v hv
        simp only [isVersionTok, Bool.and_eq_true, List.all_eq_true] at ht
        exact ht.1.2 d hdv
      rw [toLower_eq_self_of_isDigit d hdig]
      exact isAlpha_eq_false_of_isDigit d hdig

theorem tokChars_keep_replace {vs : List (List Char)}
    (hall : ∀ v ∈ vs, isVersionTok v = true) :
    ∀ c ∈ ('-' :: joinSep '-' vs), replaceChar c = c := by
  intro c hc
  rcases List.mem_cons.mp hc with rfl | hc
  · decide
  · rcases mem_joinSep '-' vs c hc with rfl | ⟨v, hv, hcv⟩
    · decide
    · have hdig : c.isDigit = true := by
        have ht := hall v hv
        simp only [isVersionTok, Bool.and_eq_true, List.all_eq_true] at ht
        exact ht.1.2 c hcv
      simp [replaceChar, ne_dot_of_isDigit c hdig, ne_colon_of_isDigit c hdig]

theorem tokChars_no_dash {vs : List (List Char)}
    (hall : ∀ v ∈ vs, isVersionTok v = true) :
    ∀ v ∈ vs, ∀ c ∈ v, c ≠ '-' := by
  intro v hv c hcv
  have ht := hall v hv
  simp only [isVersionTok, Bool.and_eq_true, List.all_eq_true] at ht
  exact ne_dash_of_isDigit c (ht.1.2 c hcv)

theorem find_canonical (fam : List Char) (vs : List (List Char))
    (hfam : fam = opusKw ∨ fam = sonnetKw ∨ fam = haikuKw)
    (hall : ∀ v ∈ vs, isVersionTok v = true) :
    familyList.find? (fun g => strIn g (pyLower (fam ++ '-' :: joinSep '-' vs)))
      = some fam := by
  have hlowna := tokChars_not_alpha hall
  have hself : ∀ gf : List Char, pyLower gf = gf →
      strIn gf (pyLower (gf ++ '-' :: joinSep '-' vs)) = true := by
    intro gf hl
    rw [pyLower, List.map_append, ← pyLower, ← pyLower, hl]
    exact strIn_of_prefixOf _ _ (isPrefixOf_self_append gf _)
  have hother : ∀ g gf : List Char, g ≠ [] → (∀ c ∈ g, c.isAlpha = true) →
      pyLower gf = gf → strIn g gf = false →
      strIn g (pyLower (gf ++ '-' :: joinSep '-' vs)) = false := by
    intro g gf hg0 hgalpha hl hno
    rw [pyLower, List.map_append, ← pyLower, ← pyLower, hl]
    rw [strIn_append_ofP Char.isAlpha g hg0 hgalpha _ hlowna gf]
    exact hno
  rcases hfam with rfl | rfl | rfl
  · simp [familyList, List.find?, hself opusKw (by decide)]
  · simp [familyList, List.find?, hself sonnetKw (by decide),
      hother opusKw sonnetKw (by decide) (by decide) (by decide) (by decide)]
  · simp [familyList, List.find?, hself haikuKw (by decide),
      hother opusKw haikuKw (by decide) (by decide) (by decide) (by decide),
      hother sonnetKw haikuKw (by decide) (by decide) (by decide) (by decide)]

theorem normChars_canonical (fam : List Char) (vs : List (List Char))
    (hfam : fam = opusKw ∨ fam = sonnetKw ∨ fam = haikuKw)
    (hvs : vs ≠ [])
    (hall : ∀ v ∈ vs, isVersionTok v = true) :
    normChars (fam ++ '-' :: joinSep '-' vs) = fam ++ '-' :: joinSep '-' vs := by
  have hfrep : ∀ c ∈ fam, replaceChar c = c := by
    rcases hfam with rfl | rfl | rfl <;> decide
  have hfdash : ∀ c ∈ fam, c ≠ '-' := by
    rcases hfam with rfl | rfl | rfl <;> decide
  have hrep : mapReplace (fam ++ '-' :: joinSep '-' vs) = fam ++ '-' :: joinSep '-' vs := by
    unfold mapReplace
    apply map_fixed
    intro c hc
    rcases List.mem_append.mp hc with hc | hc
    · exact hfrep c hc
    · exact tokChars_keep_replace hall c hc
  have hparts : splitChar '-' (mapReplace (fam ++ '-' :: joinSep '-' vs)) = fam :: vs := by
    rw [hrep, splitChar_append_left '-' fam _ hfdash, splitChar_cons_sep,
      splitChar_joinSep '-' vs hvs (tokChars_no_dash hall)]
    simp
  have hidx : firstIdx (· == fam) (fam :: vs) = some 0 := by
    simp [firstIdx]
  have hvse : vs.isEmpty = false := by
    cases vs with
    | nil => exact absurd rfl hvs
    | cons a b => rfl
  unfold normChars
  rw [find_canonical fam vs hfam hall, hparts]
  simp only [normFam, hidx, List.drop_succ_cons, List.drop_zero,
    takeWhile_all vs hall, versionJoin, hvse, Bool.false_eq_true, if_false]

theorem normChars_shape (l : List Char) :
    (familyList.find? (fun g => strIn g (pyLower l)) = none ∧ normChars l = l)
    ∨ (∃ fam, (fam = opusKw ∨ fam = sonnetKw ∨ fam = haikuKw) ∧ normChars l = fam)
    ∨ (∃ fam vs, (fam = opusKw ∨ fam = sonnetKw ∨ fam = haikuKw) ∧ vs ≠ []
        ∧ (∀ v ∈ vs, isVersionTok v = true)
        ∧ normChars l = fam ++ '-' :: joinSep '-' vs) := by
  cases hfind : familyList.find? (fun g => strIn g (pyLower l)) with
  | none =>
    left
    refine ⟨rfl, ?_⟩
    unfold normChars
    rw [hfind]
  | some fam =>
    have hfam : fam = opusKw ∨ fam = sonnetKw ∨ fam = haikuKw := by
      have hm := List.mem_of_find?_eq_some hfind
      simpa [familyList] using hm
    have e0 : normChars l = normFam fam (splitChar '-' (mapReplace l)) := by
      unfold normChars
      rw [hfind]
    cases hidx : firstIdx (· == fam) (splitChar '-' (mapReplace l)) with
    | none =>
      right
      left
      refine ⟨fam, hfam, ?_⟩
      rw [e0]
      unfold normFam
      rw [hidx]
    | some idx =>
      have e1 : normChars l
          = versionJoin fam (((splitChar '-' (mapReplace l)).drop (idx + 1)).takeWhile
              isVersionTok) := by
        rw [e0]
        unfold normFam
        rw [hidx]
      by_cases hv : (((splitChar '-' (mapReplace l)).drop (idx + 1)).takeWhile
          isVersionTok).isEmpty
      · right
        left
        refine ⟨fam, hfam, ?_⟩
        rw [e1]
        unfold versionJoin
        rw [if_pos hv]
      · right
        right
        refine ⟨fam, ((splitChar '-' (mapReplace l)).drop (idx + 1)).takeWhile isVersionTok,
          hfam, ?_, ?_, ?_⟩
        · intro he
          rw [← List.isEmpty_iff] at he
          exact hv he
        · intro v hvv
          exact (mem_takeWhile _ v hvv).2
        · rw [e1]
          unfold versionJoin
          rw [if_neg hv]

theorem normChars_bare : normChars opusKw = opusKw ∧ normChars sonnetKw = sonnetKw
    ∧ normChars haikuKw = haikuKw := by
  refine ⟨?_, ?_, ?_⟩ <;> decide

theorem normChars_idem (l : List Char) : normChars (normChars l) = normChars l := by
  rcases normChars_shape l with ⟨hfind, e⟩ | ⟨fam, hfam, e⟩ | ⟨fam, vs, hfam, hvs, hall, e⟩
  · rw [e, e]
  · rw [e]
    rcases hfam with rfl | rfl | rfl
    · exact normChars_bare.1
    · exact normChars_bare.2.1
    · exact normChars_bare.2.2
  · rw [e]
    exact normChars_canonical fam vs hfam hvs hall

/-- C9: `normalize_model_name` is idempotent — for every raw identifier
(and for absence), normalizing its own output returns that output
unchanged, so already-canonical tags are stable under re-normalization. -/
theorem c9_normalize_idempotent (r : Option String) :
    normalize_model_name (normalize_model_name r) = normalize_model_name r := by
  cases r with
  | none => rfl
  | some s =>
    by_cases hs : s = ""
    · subst hs
      rfl
    · have hsd : s.data ≠ [] := by
        intro he
        apply hs
        have : s.data = ("" : String).data := he
        exact String.ext this
      have hne : normChars s.data ≠ [] := by
        rcases normChars_shape s.data with ⟨-, e⟩ | ⟨fam, hfam, e⟩ |
          ⟨fam, vs, hfam, hvs, hall, e⟩
        · rw [e]
          exact hsd
        · rw [e]
          rcases hfam with rfl | rfl | rfl <;> decide
        · rw [e]
          rcases hfam with rfl | rfl | rfl <;> (intro he; simp at he)
      have hmne : (⟨normChars s.data⟩ : String) ≠ "" := by
        intro he
        exact hne (congrArg String.data he)
      simp only [normalize_model_name, if_neg hs, if_neg hmne]
      rw [normChars_idem]

end CCInsights
